import Mathlib

/- Verification of the SCF core of the `meanfield` package (HORTON
   mean-field module): shallow embeddings of `scf.py`, `hamiltonian.py`
   and `observable.py`, together with theorems settling the claims of
   the natural-language specification. -/

namespace Meanfield

/-! ### Cubic line search: `find_min_cubic` (src/scf.py, lines 236-287)

The routine fits the cubic `p(x) = a*x^3 + b*x^2 + c*x + d` to the
values `f0, f1` and derivatives `g0, g1` at the end points of `[0,1]`
and returns a minimizer within `[0,1]`.  Floating-point arithmetic is
modelled by exact rationals.  The single external library call
`np.sqrt(discriminant)` (numpy is an out-of-scope collaborator) is
modelled by an extra oracle argument `s`; theorems constrain `s` the way
the true square root behaves (`s * s = discriminant` when the
discriminant is a rational square, or rational bounds bracketing the
true square root otherwise). -/

/-- Coefficient `d = f0` computed in `find_min_cubic` (scf.py line 251). -/
def fit_d (f0 _f1 _g0 _g1 : ℚ) : ℚ := f0

/-- Coefficient `c = g0` computed in `find_min_cubic` (scf.py line 252). -/
def fit_c (_f0 _f1 g0 _g1 : ℚ) : ℚ := g0

/-- Coefficient `a = g1 - 2*f1 + c + 2*d` computed in `find_min_cubic`
(scf.py line 253). -/
def fit_a (f0 f1 g0 g1 : ℚ) : ℚ := g1 - 2 * f1 + fit_c f0 f1 g0 g1 + 2 * fit_d f0 f1 g0 g1

/-- Coefficient `b = f1 - a - c - d` computed in `find_min_cubic`
(scf.py line 254). -/
def fit_b (f0 f1 g0 g1 : ℚ) : ℚ :=
  f1 - fit_a f0 f1 g0 g1 - fit_c f0 f1 g0 g1 - fit_d f0 f1 g0 g1

/-- The cubic polynomial `a*x^3 + b*x^2 + c*x + d` interpolated by
`find_min_cubic`. -/
def cubic (a b c d x : ℚ) : ℚ := a * x ^ 3 + b * x ^ 2 + c * x + d

/-- The derivative `3*a*x^2 + 2*b*x + c` of the cubic polynomial. -/
def cubicDeriv (a b c x : ℚ) : ℚ := 3 * a * x ^ 2 + 2 * b * x + c

/-- Discriminant `B^2 - 4*A*C` of the quadratic `A*x^2 + B*x + C`. -/
def quadDisc (A B C : ℚ) : ℚ := B ^ 2 - 4 * A * C

/-- The local `discriminant = b**2 - 3*a*c` of `find_min_cubic`
(scf.py line 257). -/
def fit_disc (f0 f1 g0 g1 : ℚ) : ℚ :=
  fit_b f0 f1 g0 g1 ^ 2 - 3 * fit_a f0 f1 g0 g1 * fit_c f0 f1 g0 g1

/-- The root `xa = (-b + sqrt(discriminant))/(3*a)` of `find_min_cubic`
(scf.py line 262); `s` stands for the external `np.sqrt` result. -/
def root_xa (f0 f1 g0 g1 s : ℚ) : ℚ :=
  (-fit_b f0 f1 g0 g1 + s) / (3 * fit_a f0 f1 g0 g1)

/-- The root `xb = (-b - sqrt(discriminant))/(3*a)` of `find_min_cubic`
(scf.py line 263); `s` stands for the external `np.sqrt` result. -/
def root_xb (f0 f1 g0 g1 s : ℚ) : ℚ :=
  (-fit_b f0 f1 g0 g1 - s) / (3 * fit_a f0 f1 g0 g1)

/-- The curvature `6*a*x + 2*b` tested in `find_min_cubic`
(scf.py line 268). -/
def fit_curv (f0 f1 g0 g1 x : ℚ) : ℚ :=
  6 * fit_a f0 f1 g0 g1 * x + 2 * fit_b f0 f1 g0 g1

/-- The quadratic vertex `x = -0.5*c/b` of `find_min_cubic`
(scf.py line 276). -/
def quad_vertex (f0 f1 g0 g1 : ℚ) : ℚ :=
  -(1 / 2) * fit_c f0 f1 g0 g1 / fit_b f0 f1 g0 g1

/-- The boundary ("edge") fallback of `find_min_cubic`
(scf.py lines 284-287): `0.0` when `f0 < f1`, else `1.0`. -/
def edge_min (f0 f1 : ℚ) : ℚ := if f0 < f1 then 0 else 1

/-- Shallow embedding of `find_min_cubic` (src/scf.py lines 236-287).
`s` is the value of the external `np.sqrt(discriminant)` call; all other
arithmetic is exact.  Branch structure mirrors the source: discriminant
test `discriminant >= 0`, cubic-root branch guarded by
`b*b < abs(3*a*c)*1e5` (testing `xa` then `xb`, each for membership in
`[0,1]` and positive curvature), quadratic vertex branch guarded by
`b > 0`, and the boundary ("edge") fallback. -/
def find_min_cubic_q (f0 f1 g0 g1 s : ℚ) : ℚ :=
  if 0 ≤ fit_disc f0 f1 g0 g1 then
    if fit_b f0 f1 g0 g1 * fit_b f0 f1 g0 g1 <
        |3 * fit_a f0 f1 g0 g1 * fit_c f0 f1 g0 g1| * 100000 then
      if 0 ≤ root_xa f0 f1 g0 g1 s ∧ root_xa f0 f1 g0 g1 s ≤ 1 ∧
          0 < fit_curv f0 f1 g0 g1 (root_xa f0 f1 g0 g1 s) then
        root_xa f0 f1 g0 g1 s
      else if 0 ≤ root_xb f0 f1 g0 g1 s ∧ root_xb f0 f1 g0 g1 s ≤ 1 ∧
          0 < fit_curv f0 f1 g0 g1 (root_xb f0 f1 g0 g1 s) then
        root_xb f0 f1 g0 g1 s
      else edge_min f0 f1
    else if 0 < fit_b f0 f1 g0 g1 then
      if 0 ≤ quad_vertex f0 f1 g0 g1 ∧ quad_vertex f0 f1 g0 g1 ≤ 1 then
        quad_vertex f0 f1 g0 g1
      else edge_min f0 f1
    else edge_min f0 f1
  else edge_min f0 f1

/-- C10: the value returned by `find_min_cubic` always lies in the closed
interval `[0, 1]`: interior cubic roots and the quadratic vertex are
returned only after an explicit `0 <= x <= 1` check, and the fallback
returns exactly `0.0` or `1.0`.  This holds for every square-root oracle
value `s`, so in particular for the value computed by `np.sqrt`. -/
theorem find_min_cubic_q_mem_unit_interval (f0 f1 g0 g1 s : ℚ) :
    0 ≤ find_min_cubic_q f0 f1 g0 g1 s ∧ find_min_cubic_q f0 f1 g0 g1 s ≤ 1 := by
  unfold find_min_cubic_q edge_min
  split_ifs with h1 h2 h3 h4 h5 h6 h7 h8 h9 <;>
    first
      | exact ⟨h3.1, h3.2.1⟩
      | exact ⟨h4.1, h4.2.1⟩
      | exact ⟨h6.1, h6.2.1⟩
      | exact h7
      | norm_num

/-- The fitted cubic evaluated at `0` gives back `f0`. -/
theorem cubic_fit_zero (f0 f1 g0 g1 : ℚ) :
    cubic (fit_a f0 f1 g0 g1) (fit_b f0 f1 g0 g1) (fit_c f0 f1 g0 g1)
      (fit_d f0 f1 g0 g1) 0 = f0 := by
  simp [cubic, fit_a, fit_b, fit_c, fit_d]

/-- The fitted cubic evaluated at `1` gives back `f1`. -/
theorem cubic_fit_one (f0 f1 g0 g1 : ℚ) :
    cubic (fit_a f0 f1 g0 g1) (fit_b f0 f1 g0 g1) (fit_c f0 f1 g0 g1)
      (fit_d f0 f1 g0 g1) 1 = f1 := by
  simp [cubic, fit_a, fit_b, fit_c, fit_d]; ring

/-- C3 (amended): the coefficients `d = f0`, `c = g0`,
`a = g1 - 2*f1 + c + 2*d`, `b = f1 - a - c - d` computed inside
`find_min_cubic` are the unique cubic coefficients satisfying the four
interpolation conditions `p(0) = f0`, `p(1) = f1`, `p'(0) = g0`,
`p'(1) = g1` for `p(x) = a*x^3 + b*x^2 + c*x + d`; and the quantity
`b^2 - 3*a*c` used to decide whether `p'(x) = 0` has real roots equals
the discriminant of `p'(x)/2` (equivalently, one quarter of the
discriminant of `p'(x)`) — not the discriminant of `p'(x)/3` as the
original claim stated. -/
theorem fit_coeffs_unique_and_disc (f0 f1 g0 g1 : ℚ) :
    cubic (fit_a f0 f1 g0 g1) (fit_b f0 f1 g0 g1) (fit_c f0 f1 g0 g1)
        (fit_d f0 f1 g0 g1) 0 = f0 ∧
    cubic (fit_a f0 f1 g0 g1) (fit_b f0 f1 g0 g1) (fit_c f0 f1 g0 g1)
        (fit_d f0 f1 g0 g1) 1 = f1 ∧
    cubicDeriv (fit_a f0 f1 g0 g1) (fit_b f0 f1 g0 g1) (fit_c f0 f1 g0 g1) 0 = g0 ∧
    cubicDeriv (fit_a f0 f1 g0 g1) (fit_b f0 f1 g0 g1) (fit_c f0 f1 g0 g1) 1 = g1 ∧
    (∀ a b c d : ℚ, cubic a b c d 0 = f0 → cubic a b c d 1 = f1 →
        cubicDeriv a b c 0 = g0 → cubicDeriv a b c 1 = g1 →
        a = fit_a f0 f1 g0 g1 ∧ b = fit_b f0 f1 g0 g1 ∧
        c = fit_c f0 f1 g0 g1 ∧ d = fit_d f0 f1 g0 g1) ∧
    fit_disc f0 f1 g0 g1 =
      quadDisc (3 * fit_a f0 f1 g0 g1 / 2) (fit_b f0 f1 g0 g1) (fit_c f0 f1 g0 g1 / 2) := by
  refine ⟨cubic_fit_zero f0 f1 g0 g1, cubic_fit_one f0 f1 g0 g1,
    by simp [cubicDeriv, fit_c],
    by simp [cubicDeriv, fit_a, fit_b, fit_c, fit_d]; ring,
    ?_, by simp [fit_disc, quadDisc]; ring⟩
  intro a b c d h0 h1 hd0 hd1
  simp only [cubic, cubicDeriv] at h0 h1 hd0 hd1
  norm_num at h0 h1 hd0 hd1
  refine ⟨?_, ?_, ?_, ?_⟩ <;>
    simp only [fit_a, fit_b, fit_c, fit_d] <;> linarith

/-- Witness for `fit_coeffs_unique_and_disc` at the concrete input
`(f0, f1, g0, g1) = (0, 1, 0, 2)`. -/
theorem fit_coeffs_unique_and_disc_witness :
    (0 : ℚ) = fit_a 0 1 0 2 ∧ (1 : ℚ) = fit_b 0 1 0 2 ∧
    (0 : ℚ) = fit_c 0 1 0 2 ∧ (0 : ℚ) = fit_d 0 1 0 2 :=
  (fit_coeffs_unique_and_disc 0 1 0 2).2.2.2.2.1 0 1 0 0
    (by norm_num [cubic]) (by norm_num [cubic])
    (by norm_num [cubicDeriv]) (by norm_num [cubicDeriv])

/-- Counterexample to C3 as stated: at `(f0, f1, g0, g1) = (0, 1, 0, 2)`
the coefficients are `a = 0, b = 1, c = 0, d = 0`, the branching quantity
`b^2 - 3*a*c` equals `1`, while the discriminant of `p'(x)/3`
(the quadratic `a*x^2 + (2*b/3)*x + c/3`) equals `4/9`. -/
theorem fit_disc_ne_third_deriv_disc :
    fit_disc 0 1 0 2 ≠
      quadDisc (fit_a 0 1 0 2) (2 * fit_b 0 1 0 2 / 3) (fit_c 0 1 0 2 / 3) := by
  norm_num [fit_disc, quadDisc, fit_a, fit_b, fit_c, fit_d]

/-- C4 (amended): whenever the discriminant is non-negative, the cubic
term is numerically negligible in the sense of the code's own test —
`b*b >= abs(3*a*c)*1e5`, i.e. `|3ac|` is much smaller than `|b|^2`
(the original claim inverted this inequality) — and `b > 0`,
`find_min_cubic` returns the quadratic vertex `x = -c/(2*b)` provided
that value lies in `[0, 1]`.  Holds for every square-root oracle value
`s`, which this branch never uses. -/
theorem find_min_cubic_q_quadratic_vertex (f0 f1 g0 g1 s : ℚ)
    (hdisc : 0 ≤ fit_disc f0 f1 g0 g1)
    (hdom : ¬ fit_b f0 f1 g0 g1 * fit_b f0 f1 g0 g1 <
        |3 * fit_a f0 f1 g0 g1 * fit_c f0 f1 g0 g1| * 100000)
    (hb : 0 < fit_b f0 f1 g0 g1)
    (hv0 : 0 ≤ quad_vertex f0 f1 g0 g1) (hv1 : quad_vertex f0 f1 g0 g1 ≤ 1) :
    find_min_cubic_q f0 f1 g0 g1 s = quad_vertex f0 f1 g0 g1 := by
  unfold find_min_cubic_q
  rw [if_pos hdisc, if_neg hdom, if_pos hb, if_pos ⟨hv0, hv1⟩]

/-- Witness for `find_min_cubic_q_quadratic_vertex` at
`(f0, f1, g0, g1) = (0, 0, -1, 1)` (so `a = 0, b = 1, c = -1, d = 0`),
where the vertex is `1/2`. -/
theorem find_min_cubic_q_quadratic_vertex_witness :
    (0 ≤ fit_disc 0 0 (-1) 1 ∧
      ¬ fit_b 0 0 (-1) 1 * fit_b 0 0 (-1) 1 <
        |3 * fit_a 0 0 (-1) 1 * fit_c 0 0 (-1) 1| * 100000 ∧
      0 < fit_b 0 0 (-1) 1 ∧
      0 ≤ quad_vertex 0 0 (-1) 1 ∧ quad_vertex 0 0 (-1) 1 ≤ 1) ∧
    find_min_cubic_q 0 0 (-1) 1 0 = quad_vertex 0 0 (-1) 1 := by
  have h1 : 0 ≤ fit_disc 0 0 (-1) 1 := by
    norm_num [fit_disc, fit_a, fit_b, fit_c, fit_d]
  have h2 : ¬ fit_b 0 0 (-1) 1 * fit_b 0 0 (-1) 1 <
      |3 * fit_a 0 0 (-1) 1 * fit_c 0 0 (-1) 1| * 100000 := by
    norm_num [fit_a, fit_b, fit_c, fit_d]
  have h3 : 0 < fit_b 0 0 (-1) 1 := by norm_num [fit_a, fit_b, fit_c, fit_d]
  have h4 : 0 ≤ quad_vertex 0 0 (-1) 1 := by
    norm_num [quad_vertex, fit_a, fit_b, fit_c, fit_d]
  have h5 : quad_vertex 0 0 (-1) 1 ≤ 1 := by
    norm_num [quad_vertex, fit_a, fit_b, fit_c, fit_d]
  exact ⟨⟨h1, h2, h3, h4, h5⟩,
    find_min_cubic_q_quadratic_vertex 0 0 (-1) 1 0 h1 h2 h3 h4 h5⟩

/-- Counterexample to C4 as stated: at
`(f0, f1, g0, g1) = (0, 1, -1/3333, 10000/3333)` the coefficients are
`a = 1, b = 1/3333, c = -1/3333, d = 0`; the discriminant is
non-negative, `|b|^2` is much smaller than `|3ac|` (by a factor of
9999, so even `b*b*1000 < |3ac|` holds), `b > 0`, and the quadratic
vertex `-c/(2b) = 1/2` lies in `[0, 1]` — yet `find_min_cubic` takes
the cubic branch (the discriminant is the exact square of `100/3333`)
and returns the interior cubic root `1/101`, not the vertex. -/
theorem find_min_cubic_q_quadratic_claim_counterexample :
    0 ≤ fit_disc 0 1 (-1/3333) (10000/3333) ∧
    fit_b 0 1 (-1/3333) (10000/3333) * fit_b 0 1 (-1/3333) (10000/3333) * 1000 <
      |3 * fit_a 0 1 (-1/3333) (10000/3333) * fit_c 0 1 (-1/3333) (10000/3333)| ∧
    0 < fit_b 0 1 (-1/3333) (10000/3333) ∧
    0 ≤ quad_vertex 0 1 (-1/3333) (10000/3333) ∧
    quad_vertex 0 1 (-1/3333) (10000/3333) ≤ 1 ∧
    (100/3333 : ℚ) * (100/3333) = fit_disc 0 1 (-1/3333) (10000/3333) ∧
    (0 : ℚ) ≤ 100/3333 ∧
    find_min_cubic_q 0 1 (-1/3333) (10000/3333) (100/3333) = 1/101 ∧
    (1/101 : ℚ) ≠ quad_vertex 0 1 (-1/3333) (10000/3333) := by
  have habs : |(1 : ℚ)/1111| = 1/1111 := abs_of_pos (by norm_num)
  norm_num [find_min_cubic_q, fit_disc, fit_a, fit_b, fit_c, fit_d,
    quad_vertex, root_xa, root_xb, fit_curv, edge_min, habs]

/-- C5: `find_min_cubic(0.2, 0.5, 3.0, -0.7)` returns exactly `0.0`.
The fit gives `a = 17/10, b = -22/5, c = 3, d = 1/5` with discriminant
`203/50 = 4.06`; the hypotheses constrain the square-root oracle `s` to
`[2, 2.1]`, an interval that brackets `sqrt(4.06) ≈ 2.015` (since
`2^2 = 4 ≤ 4.06` and `4.06 ≤ 4.41 = 2.1^2`), so the conclusion covers
whatever value the external `np.sqrt` call produces.  The root `xa` lies
above `1`, the root `xb` has negative curvature `-2*s`, so no interior
stationary point with positive curvature lies in `[0, 1]` and the edge
rule applies: `f0 = 0.2 < 0.5 = f1`, hence `0.0` is returned. -/
theorem find_min_cubic_q_concrete_edge (s : ℚ)
    (hs0 : 0 ≤ s) (hs4 : 4 ≤ s * s) (hs441 : s * s ≤ 441/100) :
    find_min_cubic_q (1/5) (1/2) 3 (-7/10) s = 0 := by
  have hs2 : 2 ≤ s := by nlinarith
  have hs21 : s ≤ 21/10 := by nlinarith
  have hxa : ¬ (0 ≤ root_xa (1/5) (1/2) 3 (-7/10) s ∧
      root_xa (1/5) (1/2) 3 (-7/10) s ≤ 1 ∧
      0 < fit_curv (1/5) (1/2) 3 (-7/10) (root_xa (1/5) (1/2) 3 (-7/10) s)) := by
    rintro ⟨-, hle, -⟩
    have he : root_xa (1/5) (1/2) 3 (-7/10) s = (22/5 + s) / (51/10) := by
      norm_num [root_xa, fit_a, fit_b, fit_c, fit_d]
    rw [he, div_le_one (by norm_num)] at hle
    linarith
  have hxb : ¬ (0 ≤ root_xb (1/5) (1/2) 3 (-7/10) s ∧
      root_xb (1/5) (1/2) 3 (-7/10) s ≤ 1 ∧
      0 < fit_curv (1/5) (1/2) 3 (-7/10) (root_xb (1/5) (1/2) 3 (-7/10) s)) := by
    rintro ⟨-, -, hcurv⟩
    have he : fit_curv (1/5) (1/2) 3 (-7/10) (root_xb (1/5) (1/2) 3 (-7/10) s) = -(2*s) := by
      simp only [fit_curv, root_xb, fit_a, fit_b, fit_c, fit_d]
      norm_num
      ring
    rw [he] at hcurv
    linarith
  unfold find_min_cubic_q
  rw [if_pos (by norm_num [fit_disc, fit_a, fit_b, fit_c, fit_d]),
    if_pos (by norm_num [fit_a, fit_b, fit_c, fit_d, abs_of_pos]),
    if_neg hxa, if_neg hxb]
  norm_num [edge_min]

/-- Witness for `find_min_cubic_q_concrete_edge` at the oracle value
`s = 2`. -/
theorem find_min_cubic_q_concrete_edge_witness :
    ((0 : ℚ) ≤ 2 ∧ (4 : ℚ) ≤ 2 * 2 ∧ (2 : ℚ) * 2 ≤ 441/100) ∧
    find_min_cubic_q (1/5) (1/2) 3 (-7/10) 2 = 0 :=
  ⟨⟨by norm_num, by norm_num, by norm_num⟩,
    find_min_cubic_q_concrete_edge 2 (by norm_num) (by norm_num) (by norm_num)⟩

/-- A stationary point `x >= 0` of the cubic with positive curvature and
non-positive slope at `0` has value at most the value at `0`. -/
theorem cubic_local_min_le_endpoint (a b c d x : ℚ) (hx : 0 ≤ x)
    (hroot : cubicDeriv a b c x = 0) (hcurv : 0 < 6 * a * x + 2 * b)
    (hc : c ≤ 0) : cubic a b c d x ≤ cubic a b c d 0 := by
  rcases eq_or_lt_of_le hx with h | h
  · rw [← h]
  · have hkey : cubic a b c d x - cubic a b c d 0 =
        -(x ^ 2 * (2 * a * x + b)) + x * cubicDeriv a b c x := by
      unfold cubic cubicDeriv; ring
    rw [hroot, mul_zero, add_zero] at hkey
    have h1 : 0 ≤ 3 * a * x + 2 * b := by
      simp only [cubicDeriv] at hroot
      nlinarith
    have h3 : 0 < 2 * a * x + b := by linarith
    nlinarith [mul_pos (mul_pos h h) h3]

/-- If `s` squares to `b^2 - 3*a*c` and `a` is non-zero, then
`(-b + s)/(3*a)` is a root of the derivative `3*a*x^2 + 2*b*x + c`. -/
theorem cubicDeriv_root (a b c s : ℚ) (ha : a ≠ 0)
    (hss : s * s = b ^ 2 - 3 * a * c) :
    cubicDeriv a b c ((-b + s) / (3 * a)) = 0 := by
  have h3a : (3 : ℚ) * a ≠ 0 := by
    intro h
    exact ha (by linarith [h])
  unfold cubicDeriv
  field_simp
  linear_combination 9 * a ^ 2 * hss

/-- In the dominant-quadratic branch the vertex value never exceeds the
value at `0`: if `b > 0`, `|3ac|*1e5 <= b*b` and `c <= 0`, then
`p(-0.5*c/b) <= p(0) = d`. -/
theorem cubic_vertex_le_endpoint (a b c d : ℚ) (hb : 0 < b)
    (hdom : |3 * a * c| * 100000 ≤ b * b) (_hc : c ≤ 0) :
    cubic a b c d (-(1 / 2) * c / b) ≤ d := by
  have hb' : b ≠ 0 := ne_of_gt hb
  have hkey : cubic a b c d (-(1 / 2) * c / b) - d =
      -(a * c ^ 3 + 2 * b ^ 2 * c ^ 2) / (8 * b ^ 3) := by
    unfold cubic
    field_simp
    ring
  have q1 : 0 ≤ (|3 * a * c| + 3 * a * c) * c ^ 2 :=
    mul_nonneg (by linarith [neg_abs_le (3 * a * c)]) (sq_nonneg c)
  have q2 : 0 ≤ (b * b - |3 * a * c| * 100000) * c ^ 2 :=
    mul_nonneg (by linarith) (sq_nonneg c)
  have q3 : 0 ≤ b * b * c ^ 2 := mul_nonneg (mul_nonneg hb.le hb.le) (sq_nonneg c)
  have hnum : 0 ≤ a * c ^ 3 + 2 * b ^ 2 * c ^ 2 := by nlinarith [q1, q2, q3]
  have hfrac : -(a * c ^ 3 + 2 * b ^ 2 * c ^ 2) / (8 * b ^ 3) ≤ 0 :=
    div_nonpos_of_nonpos_of_nonneg (by linarith) (by positivity)
  linarith [hkey, hfrac]

/-- Per-iteration ODA energy bound: provided the derivative `g0` at the
current point is non-positive (guaranteed in the algorithm because the
trial density matrix minimizes the trace against the current Fock
operator) and the oracle `s` squares to the discriminant whenever the
discriminant is non-negative, the fitted cubic evaluated at the mixing
parameter chosen by `find_min_cubic` never exceeds `f0`, the value at
the current point. -/
theorem find_min_cubic_q_no_increase (f0 f1 g0 g1 s : ℚ) (hg0 : g0 ≤ 0)
    (hs : 0 ≤ fit_disc f0 f1 g0 g1 → s * s = fit_disc f0 f1 g0 g1) :
    cubic (fit_a f0 f1 g0 g1) (fit_b f0 f1 g0 g1) (fit_c f0 f1 g0 g1)
      (fit_d f0 f1 g0 g1) (find_min_cubic_q f0 f1 g0 g1 s) ≤ f0 := by
  have hc : fit_c f0 f1 g0 g1 ≤ 0 := hg0
  have hedge : cubic (fit_a f0 f1 g0 g1) (fit_b f0 f1 g0 g1) (fit_c f0 f1 g0 g1)
      (fit_d f0 f1 g0 g1) (edge_min f0 f1) ≤ f0 := by
    unfold edge_min
    split_ifs with hlt
    · rw [cubic_fit_zero]
    · rw [cubic_fit_one]; linarith
  unfold find_min_cubic_q
  split_ifs with h1 h2 h3 h4 h5 h6
  · -- root xa accepted
    by_cases ha : fit_a f0 f1 g0 g1 = 0
    · have hz : root_xa f0 f1 g0 g1 s = 0 := by
        simp [root_xa, ha]
      rw [hz, cubic_fit_zero]
    · have hroot := cubicDeriv_root (fit_a f0 f1 g0 g1) (fit_b f0 f1 g0 g1)
        (fit_c f0 f1 g0 g1) s ha (by rw [hs h1]; unfold fit_disc; ring)
      have := cubic_local_min_le_endpoint (fit_a f0 f1 g0 g1) (fit_b f0 f1 g0 g1)
        (fit_c f0 f1 g0 g1) (fit_d f0 f1 g0 g1) (root_xa f0 f1 g0 g1 s)
        h3.1 (by rw [show root_xa f0 f1 g0 g1 s =
            (-fit_b f0 f1 g0 g1 + s) / (3 * fit_a f0 f1 g0 g1) from rfl]; exact hroot)
        (by have := h3.2.2; unfold fit_curv at this; linarith) hc
      rw [cubic_fit_zero] at this
      exact this
  · -- root xb accepted
    by_cases ha : fit_a f0 f1 g0 g1 = 0
    · have hz : root_xb f0 f1 g0 g1 s = 0 := by
        simp [root_xb, ha]
      rw [hz, cubic_fit_zero]
    · have hroot := cubicDeriv_root (fit_a f0 f1 g0 g1) (fit_b f0 f1 g0 g1)
        (fit_c f0 f1 g0 g1) (-s) ha
        (by rw [show -s * -s = s * s from by ring, hs h1]; unfold fit_disc; ring)
      have hxbeq : root_xb f0 f1 g0 g1 s =
          (-fit_b f0 f1 g0 g1 + -s) / (3 * fit_a f0 f1 g0 g1) := by
        unfold root_xb; ring_nf
      have := cubic_local_min_le_endpoint (fit_a f0 f1 g0 g1) (fit_b f0 f1 g0 g1)
        (fit_c f0 f1 g0 g1) (fit_d f0 f1 g0 g1) (root_xb f0 f1 g0 g1 s)
        h4.1 (by rw [hxbeq]; exact hroot)
        (by have := h4.2.2; unfold fit_curv at this; linarith) hc
      rw [cubic_fit_zero] at this
      exact this
  · exact hedge
  · -- quadratic vertex accepted
    have := cubic_vertex_le_endpoint (fit_a f0 f1 g0 g1) (fit_b f0 f1 g0 g1)
      (fit_c f0 f1 g0 g1) (fit_d f0 f1 g0 g1) h5 (by linarith [not_lt.mp h2]) hc
    unfold quad_vertex
    unfold fit_d at this
    exact this
  · exact hedge
  · exact hedge
  · exact hedge

/-- C2: successive iterations of the optimal-damping solver never
increase the total energy.  The iteration is modelled by per-iteration
sequences: `e0 i`, `e1 i` are the energies at states 0 and 1 of
iteration `i`, `g0 i`, `g1 i` the endpoint derivatives, and `sq i` the
external `np.sqrt(discriminant)` value.  `hexact` states that the energy
at the damped density matrix — which becomes `e0 (i+1)` of the next
iteration — equals the fitted cubic at the mixing parameter chosen by
`find_min_cubic` (exact for the quadratic, Hartree-Fock-like energy
functional that ODA's line search interpolates); `hg` states that the
endpoint-0 derivative is non-positive, which the algorithm guarantees
because the trial density matrix minimizes the trace against the current
Fock operator.  The conclusion: the energy sequence `e0` is monotonically
non-increasing. -/
theorem oda_cs_energy_monotone
    (e0 e1 g0 g1 sq : ℕ → ℚ)
    (hg : ∀ i, g0 i ≤ 0)
    (hsq : ∀ i, 0 ≤ fit_disc (e0 i) (e1 i) (g0 i) (g1 i) →
        sq i * sq i = fit_disc (e0 i) (e1 i) (g0 i) (g1 i))
    (hexact : ∀ i, e0 (i + 1) =
        cubic (fit_a (e0 i) (e1 i) (g0 i) (g1 i)) (fit_b (e0 i) (e1 i) (g0 i) (g1 i))
          (fit_c (e0 i) (e1 i) (g0 i) (g1 i)) (fit_d (e0 i) (e1 i) (g0 i) (g1 i))
          (find_min_cubic_q (e0 i) (e1 i) (g0 i) (g1 i) (sq i))) :
    ∀ i j, i ≤ j → e0 j ≤ e0 i := by
  have hstep : ∀ i, e0 (i + 1) ≤ e0 i := by
    intro i
    rw [hexact i]
    exact find_min_cubic_q_no_increase (e0 i) (e1 i) (g0 i) (g1 i) (sq i) (hg i) (hsq i)
  intro i j hij
  induction hij with
  | refl => exact le_refl _
  | @step m hm ih => exact le_trans (hstep m) ih

/-- Witness for `oda_cs_energy_monotone`: the constant-zero iteration
data satisfies all hypotheses, and the energy at iteration 3 is at most
the energy at iteration 1. -/
theorem oda_cs_energy_monotone_witness :
    ((∀ i : ℕ, (fun _ : ℕ => (0 : ℚ)) i ≤ 0) ∧
      (∀ j : ℕ, (fun _ : ℕ => (0 : ℚ)) j = cubic 0 0 0 0 (find_min_cubic_q 0 0 0 0 0))) ∧
    (fun _ : ℕ => (0 : ℚ)) 3 ≤ (fun _ : ℕ => (0 : ℚ)) 1 := by
  have heval : cubic 0 0 0 0 (find_min_cubic_q 0 0 0 0 0) = 0 := by
    norm_num [find_min_cubic_q, fit_disc, fit_a, fit_b, fit_c, fit_d, edge_min, cubic]
  refine ⟨⟨fun _ => le_refl 0, fun _ => heval.symm⟩, ?_⟩
  exact oda_cs_energy_monotone (fun _ => 0) (fun _ => 0) (fun _ => 0) (fun _ => 0)
    (fun _ => 0) (fun i => le_refl 0)
    (fun i _ => by norm_num [fit_disc, fit_a, fit_b, fit_c, fit_d])
    (fun _ => by
      simpa [fit_a, fit_b, fit_c, fit_d] using heval.symm)
    1 3 (by norm_num)

/-! ### Plain SCF loops (`converge_scf_cs` / `converge_scf_os`,
src/scf.py lines 74-198)

The loop body is abstracted over its external collaborators: a state `σ`
bundles the wavefunction and Hamiltonian caches; `errA σ` (and `errB σ`
for the beta channel of the open-shell loop) is the eigen error
`lf.error_eigen(fock, overlap, exp)` computed from the Fock operator
built at state `σ`; `step σ` is the combined effect of
`wfn.update_exp` + `ham.clear()` + checkpoint write, performed only when
the error test fails.  `converge_scf_cs ... m σ` models the call with
`maxiter = m`; the Python `maxiter = None` case is the loop run with no
bound, characterized below by quantifying over all sufficiently large
`m`. -/

/-- The exception raised by the SCF drivers on iteration exhaustion
(src/scf.py line 38). -/
structure NoSCFConvergence : Type where

/-- Shallow embedding of the closed-shell SCF loop `converge_scf_cs`
(src/scf.py lines 107-133): at each of the `maxiter` allowed iterations
the eigen error of the current state is tested against the threshold;
below threshold the loop breaks and the call returns normally, otherwise
the state is updated; when the bound is exhausted without convergence,
`NoSCFConvergence` is raised. -/
def converge_scf_cs (step : σ → σ) (errA : σ → ℚ) (threshold : ℚ) :
    ℕ → σ → Except NoSCFConvergence σ
  | 0, _ => .error ⟨⟩
  | m + 1, s =>
      if errA s < threshold then .ok s
      else converge_scf_cs step errA threshold m (step s)

/-- Shallow embedding of the open-shell SCF loop `converge_scf_os`
(src/scf.py lines 170-198): identical control flow, but convergence
requires both the alpha and the beta eigen error to drop below the
threshold in the same iteration. -/
def converge_scf_os (step : σ → σ) (errA errB : σ → ℚ) (threshold : ℚ) :
    ℕ → σ → Except NoSCFConvergence σ
  | 0, _ => .error ⟨⟩
  | m + 1, s =>
      if errA s < threshold ∧ errB s < threshold then .ok s
      else converge_scf_os step errA errB threshold m (step s)

/-- Helper: the closed-shell loop raises `NoSCFConvergence` exactly when
the error stays at or above the threshold for all `maxiter` tested
states. -/
theorem converge_scf_cs_error_iff (step : σ → σ) (errA : σ → ℚ) (θ : ℚ) :
    ∀ (m : ℕ) (s : σ), converge_scf_cs step errA θ m s = .error ⟨⟩ ↔
      ∀ i, i < m → θ ≤ errA (step^[i] s) := by
  intro m
  induction m with
  | zero => intro s; simp [converge_scf_cs]
  | succ n ih =>
      intro s
      unfold converge_scf_cs
      split_ifs with h
      · constructor
        · intro hfalse; cases hfalse
        · intro hall
          have h0 := hall 0 (Nat.succ_pos n)
          simp only [Function.iterate_zero, id_eq] at h0
          exact absurd h0 (not_le.mpr h)
      · rw [ih (step s)]
        constructor
        · intro hall i hi
          cases i with
          | zero => simpa using not_lt.mp h
          | succ k =>
              have := hall k (Nat.lt_of_succ_lt_succ hi)
              simpa [Function.iterate_succ_apply] using this
        · intro hall i hi
          have := hall (i + 1) (Nat.succ_lt_succ hi)
          simpa [Function.iterate_succ_apply] using this

/-- Helper: mirror of `converge_scf_cs_error_iff` for the open-shell
loop; a channel is unconverged when either error is at or above the
threshold. -/
theorem converge_scf_os_error_iff (step : σ → σ) (errA errB : σ → ℚ) (θ : ℚ) :
    ∀ (m : ℕ) (s : σ), converge_scf_os step errA errB θ m s = .error ⟨⟩ ↔
      ∀ i, i < m → θ ≤ errA (step^[i] s) ∨ θ ≤ errB (step^[i] s) := by
  intro m
  induction m with
  | zero => intro s; simp [converge_scf_os]
  | succ n ih =>
      intro s
      unfold converge_scf_os
      split_ifs with h
      · constructor
        · intro hfalse; cases hfalse
        · intro hall
          rcases hall 0 (Nat.succ_pos n) with hcase | hcase <;>
            simp only [Function.iterate_zero, id_eq] at hcase <;>
            [exact absurd h.1 (not_lt.mpr hcase); exact absurd h.2 (not_lt.mpr hcase)]
      · rw [ih (step s)]
        constructor
        · intro hall i hi
          cases i with
          | zero =>
              simp only [Function.iterate_zero, id_eq]
              rcases not_and_or.mp h with hcase | hcase
              · exact Or.inl (not_lt.mp hcase)
              · exact Or.inr (not_lt.mp hcase)
          | succ k =>
              have := hall k (Nat.lt_of_succ_lt_succ hi)
              simpa [Function.iterate_succ_apply] using this
        · intro hall i hi
          have := hall (i + 1) (Nat.succ_lt_succ hi)
          simpa [Function.iterate_succ_apply] using this

/-- Helper: when iteration `j` is the first whose error is below the
threshold, every run allowed at least `j + 1` iterations returns
normally with that state — this is the behaviour of the unbounded
(`maxiter = None`) loop. -/
theorem converge_scf_cs_ok_of_first (step : σ → σ) (errA : σ → ℚ) (θ : ℚ) :
    ∀ (j : ℕ) (s : σ), errA (step^[j] s) < θ →
      (∀ i, i < j → θ ≤ errA (step^[i] s)) →
      ∀ m, j < m → converge_scf_cs step errA θ m s = .ok (step^[j] s) := by
  intro j
  induction j with
  | zero =>
      intro s hj _ m hm
      cases m with
      | zero => exact absurd hm (by omega)
      | succ n =>
          unfold converge_scf_cs
          rw [if_pos (by simpa using hj)]
          simp
  | succ k ih =>
      intro s hj hmin m hm
      cases m with
      | zero => exact absurd hm (by omega)
      | succ n =>
          unfold converge_scf_cs
          rw [if_neg (not_lt.mpr (by simpa using hmin 0 (Nat.succ_pos k)))]
          have hj' : errA (step^[k] (step s)) < θ := by
            simpa [Function.iterate_succ_apply] using hj
          have hmin' : ∀ i, i < k → θ ≤ errA (step^[i] (step s)) := by
            intro i hi
            have := hmin (i + 1) (Nat.succ_lt_succ hi)
            simpa [Function.iterate_succ_apply] using this
          rw [ih (step s) hj' hmin' n (by omega)]
          rw [Function.iterate_succ_apply]

/-- Helper: open-shell analogue of `converge_scf_cs_ok_of_first`. -/
theorem converge_scf_os_ok_of_first (step : σ → σ) (errA errB : σ → ℚ) (θ : ℚ) :
    ∀ (j : ℕ) (s : σ), errA (step^[j] s) < θ → errB (step^[j] s) < θ →
      (∀ i, i < j → θ ≤ errA (step^[i] s) ∨ θ ≤ errB (step^[i] s)) →
      ∀ m, j < m → converge_scf_os step errA errB θ m s = .ok (step^[j] s) := by
  intro j
  induction j with
  | zero =>
      intro s hja hjb _ m hm
      cases m with
      | zero => exact absurd hm (by omega)
      | succ n =>
          unfold converge_scf_os
          rw [if_pos ⟨by simpa using hja, by simpa using hjb⟩]
          simp
  | succ k ih =>
      intro s hja hjb hmin m hm
      cases m with
      | zero => exact absurd hm (by omega)
      | succ n =>
          have hneg : ¬ (errA s < θ ∧ errB s < θ) := by
            rcases hmin 0 (Nat.succ_pos k) with hcase | hcase <;>
              simp only [Function.iterate_zero, id_eq] at hcase <;>
              [exact fun hand => absurd hand.1 (not_lt.mpr hcase);
                exact fun hand => absurd hand.2 (not_lt.mpr hcase)]
          unfold converge_scf_os
          rw [if_neg hneg]
          have hja' : errA (step^[k] (step s)) < θ := by
            simpa [Function.iterate_succ_apply] using hja
          have hjb' : errB (step^[k] (step s)) < θ := by
            simpa [Function.iterate_succ_apply] using hjb
          have hmin' : ∀ i, i < k → θ ≤ errA (step^[i] (step s)) ∨ θ ≤ errB (step^[i] (step s)) := by
            intro i hi
            have := hmin (i + 1) (Nat.succ_lt_succ hi)
            simpa [Function.iterate_succ_apply] using this
          rw [ih (step s) hja' hjb' hmin' n (by omega)]
          rw [Function.iterate_succ_apply]

/-- C1: the plain SCF drivers raise `NoSCFConvergence` exactly when the
per-channel eigen error has not dropped below the threshold within
`maxiter` iterations (conjuncts 1 and 2, for the closed-shell and the
open-shell loop); and when `maxiter` is `None`, the loop continues
without bound until the error is below the threshold, returning normally
without raising — captured by conjuncts 3 and 4: whenever some iteration
`j` is the first to meet the threshold, every run with bound exceeding
`j` (hence also the unbounded run) stops there and returns `ok`. -/
theorem scf_convergence_characterization (σ τ : Type)
    (stepA : σ → σ) (errA : σ → ℚ) (stepB : τ → τ) (errBa errBb : τ → ℚ)
    (θ : ℚ) (s : σ) (t : τ) :
    (∀ m, converge_scf_cs stepA errA θ m s = .error ⟨⟩ ↔
        ∀ i, i < m → θ ≤ errA (stepA^[i] s)) ∧
    (∀ m, converge_scf_os stepB errBa errBb θ m t = .error ⟨⟩ ↔
        ∀ i, i < m → θ ≤ errBa (stepB^[i] t) ∨ θ ≤ errBb (stepB^[i] t)) ∧
    (∀ j, errA (stepA^[j] s) < θ → (∀ i, i < j → θ ≤ errA (stepA^[i] s)) →
        ∀ m, j < m → converge_scf_cs stepA errA θ m s = .ok (stepA^[j] s)) ∧
    (∀ j, errBa (stepB^[j] t) < θ → errBb (stepB^[j] t) < θ →
        (∀ i, i < j → θ ≤ errBa (stepB^[i] t) ∨ θ ≤ errBb (stepB^[i] t)) →
        ∀ m, j < m → converge_scf_os stepB errBa errBb θ m t = .ok (stepB^[j] t)) :=
  ⟨fun m => converge_scf_cs_error_iff stepA errA θ m s,
    fun m => converge_scf_os_error_iff stepB errBa errBb θ m t,
    fun j hj hmin => converge_scf_cs_ok_of_first stepA errA θ j s hj hmin,
    fun j hja hjb hmin => converge_scf_os_ok_of_first stepB errBa errBb θ j t hja hjb hmin⟩

/-- Witness for `scf_convergence_characterization`, instantiated at a
concrete one-point iteration whose error sequence is constant `1`:
with threshold `2` the loop converges immediately, and with threshold
`1/2` every bounded run raises `NoSCFConvergence`. -/
theorem scf_convergence_characterization_witness :
    converge_scf_cs (fun u : Unit => u) (fun _ => 1) 2 5 () = .ok (((fun u : Unit => u)^[0]) ()) ∧
    (converge_scf_cs (fun u : Unit => u) (fun _ => (1 : ℚ)) (1/2) 5 () = .error ⟨⟩ ↔
      ∀ i, i < 5 → (1/2 : ℚ) ≤ 1) := by
  constructor
  · exact (scf_convergence_characterization Unit Unit (fun u => u) (fun _ => 1)
      (fun u => u) (fun _ => 1) (fun _ => 1) 2 () ()).2.2.1 0 (by norm_num)
      (fun i hi => absurd hi (Nat.not_lt_zero i)) 5 (by norm_num)
  · exact (scf_convergence_characterization Unit Unit (fun u => u) (fun _ => 1)
      (fun u => u) (fun _ => 1) (fun _ => 1) (1/2) () ()).1 5

/-! ### ODA convergence check (`converge_scf_oda_cs` /
`converge_scf_oda_os`, src/scf.py lines 334-473 and 526-687)

The per-iteration body (Fock builds, diagonalization, line search,
damped density matrix) is abstracted into `step`; `dist σ` is the
distance `dm2.distance(dm0)` computed at the end of the body (for the
open-shell loop `distA`/`distB` are the alpha/beta distances), and
`deriv σ` is the endpoint-0 energy derivative `energy0_deriv` of that
iteration.  The loop tests `dist < threshold`; on passing it, it
additionally checks `abs(energy0_deriv) > threshold` and raises a
`RuntimeError` — a fatal condition distinct from the recoverable
`NoSCFConvergence` raised when the iteration bound is exhausted. -/

/-- Outcome of an ODA solver call: normal return with the converged
state, the recoverable `NoSCFConvergence` exception on iteration
exhaustion, or the fatal `RuntimeError` raised at a claimed stationary
point with non-zero gradient (src/scf.py lines 447-452, 658-664). -/
inductive ODAOutcome (σ : Type) where
  | converged : σ → ODAOutcome σ
  | noSCFConvergence : ODAOutcome σ
  | runtimeError : ODAOutcome σ
  deriving DecidableEq

/-- Shallow embedding of the convergence logic of `converge_scf_oda_cs`
(src/scf.py lines 391-473): when the density-matrix distance drops below
the threshold, a gradient magnitude above the threshold is a fatal
`RuntimeError`, otherwise the loop breaks and returns normally;
exhausting `maxiter` raises `NoSCFConvergence`. -/
def converge_scf_oda_cs (step : σ → σ) (dist deriv : σ → ℚ) (threshold : ℚ) :
    ℕ → σ → ODAOutcome σ
  | 0, _ => .noSCFConvergence
  | m + 1, s =>
      if dist s < threshold then
        if threshold < |deriv s| then .runtimeError else .converged s
      else converge_scf_oda_cs step dist deriv threshold m (step s)

/-- Shallow embedding of the convergence logic of `converge_scf_oda_os`
(src/scf.py lines 591-687): both the alpha and the beta density-matrix
distance must drop below the threshold, then the same gradient check is
applied to the (spin-summed) endpoint-0 derivative. -/
def converge_scf_oda_os (step : σ → σ) (distA distB deriv : σ → ℚ) (threshold : ℚ) :
    ℕ → σ → ODAOutcome σ
  | 0, _ => .noSCFConvergence
  | m + 1, s =>
      if distA s < threshold ∧ distB s < threshold then
        if threshold < |deriv s| then .runtimeError else .converged s
      else converge_scf_oda_os step distA distB deriv threshold m (step s)

/-- Helper: the closed-shell ODA loop hits the `RuntimeError` branch at
the first iteration whose distance test passes, when the gradient
magnitude exceeds the threshold there. -/
theorem converge_scf_oda_cs_runtime_error (step : σ → σ) (dist deriv : σ → ℚ)
    (θ : ℚ) :
    ∀ (j : ℕ) (s : σ), (∀ i, i < j → θ ≤ dist (step^[i] s)) →
      dist (step^[j] s) < θ → θ < |deriv (step^[j] s)| →
      ∀ m, j < m → converge_scf_oda_cs step dist deriv θ m s = .runtimeError := by
  intro j
  induction j with
  | zero =>
      intro s _ hd hg m hm
      cases m with
      | zero => exact absurd hm (by omega)
      | succ n =>
          unfold converge_scf_oda_cs
          rw [if_pos (by simpa using hd), if_pos (by simpa using hg)]
  | succ k ih =>
      intro s hmin hd hg m hm
      cases m with
      | zero => exact absurd hm (by omega)
      | succ n =>
          unfold converge_scf_oda_cs
          rw [if_neg (not_lt.mpr (by simpa using hmin 0 (Nat.succ_pos k)))]
          refine ih (step s) ?_ ?_ ?_ n (by omega)
          · intro i hi
            have := hmin (i + 1) (Nat.succ_lt_succ hi)
            simpa [Function.iterate_succ_apply] using this
          · simpa [Function.iterate_succ_apply] using hd
          · simpa [Function.iterate_succ_apply] using hg

/-- Helper: open-shell analogue of
`converge_scf_oda_cs_runtime_error`. -/
theorem converge_scf_oda_os_runtime_error (step : σ → σ)
    (distA distB deriv : σ → ℚ) (θ : ℚ) :
    ∀ (j : ℕ) (s : σ),
      (∀ i, i < j → θ ≤ distA (step^[i] s) ∨ θ ≤ distB (step^[i] s)) →
      distA (step^[j] s) < θ → distB (step^[j] s) < θ →
      θ < |deriv (step^[j] s)| →
      ∀ m, j < m → converge_scf_oda_os step distA distB deriv θ m s = .runtimeError := by
  intro j
  induction j with
  | zero =>
      intro s _ hda hdb hg m hm
      cases m with
      | zero => exact absurd hm (by omega)
      | succ n =>
          unfold converge_scf_oda_os
          rw [if_pos ⟨by simpa using hda, by simpa using hdb⟩, if_pos (by simpa using hg)]
  | succ k ih =>
      intro s hmin hda hdb hg m hm
      cases m with
      | zero => exact absurd hm (by omega)
      | succ n =>
          have hneg : ¬ (distA s < θ ∧ distB s < θ) := by
            rcases hmin 0 (Nat.succ_pos k) with hcase | hcase <;>
              simp only [Function.iterate_zero, id_eq] at hcase <;>
              [exact fun hand => absurd hand.1 (not_lt.mpr hcase);
                exact fun hand => absurd hand.2 (not_lt.mpr hcase)]
          unfold converge_scf_oda_os
          rw [if_neg hneg]
          refine ih (step s) ?_ ?_ ?_ ?_ n (by omega)
          · intro i hi
            have := hmin (i + 1) (Nat.succ_lt_succ hi)
            simpa [Function.iterate_succ_apply] using this
          · simpa [Function.iterate_succ_apply] using hda
          · simpa [Function.iterate_succ_apply] using hdb
          · simpa [Function.iterate_succ_apply] using hg

/-- C9: in the ODA solvers, when the density-matrix distance test passes
at some iteration (here the first such iteration `j`, within the
iteration bound) but the magnitude of the endpoint-0 energy derivative
exceeds the threshold, the call ends in the fatal `RuntimeError`
outcome; and that outcome is a distinct condition from the recoverable
`NoSCFConvergence` raised on iteration exhaustion.  Conjuncts 1 and 3
cover the closed-shell loop, conjuncts 2 and 4 the open-shell loop. -/
theorem oda_runtime_error_distinct (σ τ : Type) (stepA : σ → σ)
    (dist deriv : σ → ℚ) (stepB : τ → τ) (distA distB derivB : τ → ℚ)
    (θ : ℚ) (s : σ) (t : τ) (j jb m mb : ℕ)
    (hjm : j < m)
    (hmin : ∀ i, i < j → θ ≤ dist (stepA^[i] s))
    (hd : dist (stepA^[j] s) < θ) (hg : θ < |deriv (stepA^[j] s)|)
    (hjmb : jb < mb)
    (hminb : ∀ i, i < jb → θ ≤ distA (stepB^[i] t) ∨ θ ≤ distB (stepB^[i] t))
    (hda : distA (stepB^[jb] t) < θ) (hdb : distB (stepB^[jb] t) < θ)
    (hgb : θ < |derivB (stepB^[jb] t)|) :
    converge_scf_oda_cs stepA dist deriv θ m s = .runtimeError ∧
    converge_scf_oda_os stepB distA distB derivB θ mb t = .runtimeError ∧
    (ODAOutcome.runtimeError : ODAOutcome σ) ≠ .noSCFConvergence ∧
    (ODAOutcome.runtimeError : ODAOutcome τ) ≠ .noSCFConvergence :=
  ⟨converge_scf_oda_cs_runtime_error stepA dist deriv θ j s hmin hd hg m hjm,
    converge_scf_oda_os_runtime_error stepB distA distB derivB θ jb t hminb hda hdb hgb mb hjmb,
    fun h => ODAOutcome.noConfusion h, fun h => ODAOutcome.noConfusion h⟩

/-- Witness for `oda_runtime_error_distinct`: a one-point state whose
distance is constantly `0` and whose gradient is constantly `1`, with
threshold `1/2`: the distance test passes at iteration `0` while the
gradient magnitude `1` exceeds the threshold, so both loops end in
`RuntimeError`. -/
theorem oda_runtime_error_distinct_witness :
    converge_scf_oda_cs (fun u : Unit => u) (fun _ => 0) (fun _ => 1) (1/2) 4 () =
      .runtimeError ∧
    converge_scf_oda_os (fun u : Unit => u) (fun _ => 0) (fun _ => 0) (fun _ => 1)
      (1/2) 4 () = .runtimeError ∧
    (ODAOutcome.runtimeError : ODAOutcome Unit) ≠ .noSCFConvergence ∧
    (ODAOutcome.runtimeError : ODAOutcome Unit) ≠ .noSCFConvergence :=
  oda_runtime_error_distinct Unit Unit (fun u => u) (fun _ => 0) (fun _ => 1)
    (fun u => u) (fun _ => 0) (fun _ => 0) (fun _ => 1) (1/2) () () 0 0 4 4
    (by norm_num) (fun i hi => absurd hi (Nat.not_lt_zero i)) (by norm_num)
    (by norm_num) (by norm_num) (fun i hi => absurd hi (Nat.not_lt_zero i))
    (by norm_num) (by norm_num) (by norm_num)

/-! ### Hamiltonian construction (`Hamiltonian.__init__`,
src/hamiltonian.py lines 37-100)

A term is modelled by the three attributes the constructor inspects:
`require_grid` (line 61), `exchange` (line 71), and its class identity
for the `isinstance` checks against `KineticEnergy`, `Hartree` (and its
subclasses) and `ExternalPotential` (lines 75-89), abstracted as a
`TermKind`.  The constructor's validation and term-completion logic is
modelled as a function returning either the completed term list or the
error raised (`ValueError` for an empty term list, `TypeError` for a
grid-requiring term without a grid, `ValueError` for a missing exchange
term under `idiot_proof=True`); returning from this function models
`__init__` completing without raising, so an error outcome is reported
at construction time, never deferred to `compute`/`compute_fock`. -/

/-- Class identity of a Hamiltonian term, for the `isinstance` checks in
`Hamiltonian.__init__`: `hartree` covers `Hartree` and its subclasses. -/
inductive TermKind where
  | kinetic
  | hartree
  | extpot
  | other
  deriving DecidableEq, BEq

/-- A Hamiltonian term as seen by `Hamiltonian.__init__`: the
`require_grid` and `exchange` attributes and the class identity. -/
structure HamTerm where
  require_grid : Bool
  exchange : Bool
  kind : TermKind
  deriving DecidableEq

/-- The errors `Hamiltonian.__init__` can raise
(src/hamiltonian.py lines 58-62 and 71-72). -/
inductive HamInitError where
  | valueErrorNoTerms
  | typeErrorGridMissing
  | valueErrorNoExchange
  deriving DecidableEq

/-- Modelled from the spec: the `KineticEnergy` term appended by the
`idiot_proof` completion step.  The class lives in
`horton.meanfield.core`, outside the given sources; only its class
identity matters to the constructor logic. -/
def kineticTerm : HamTerm := ⟨false, false, TermKind.kinetic⟩

/-- Modelled from the spec: the `Hartree` term appended by the
`idiot_proof` completion step (class in `horton.meanfield.builtin`,
outside the given sources). -/
def hartreeTerm : HamTerm := ⟨false, false, TermKind.hartree⟩

/-- Modelled from the spec: the `ExternalPotential` term appended by the
`idiot_proof` completion step (class in `horton.meanfield.core`,
outside the given sources). -/
def extPotTerm : HamTerm := ⟨false, false, TermKind.extpot⟩

/-- Shallow embedding of the validation and term-completion logic of
`Hamiltonian.__init__` (src/hamiltonian.py lines 57-89): reject an empty
term list (`ValueError`), then reject any grid-requiring term when no
grid is given (`TypeError`); under `idiot_proof=True` reject a term list
with no exchange term (`ValueError`) and append the missing standard
terms (kinetic energy, Hartree, external potential — membership tested
over the original `terms` argument, appends in that order); on success
return the completed term list held in `self.terms`. -/
def hamiltonianInit (terms : List HamTerm) (grid : Option Unit)
    (idiot_proof : Bool) : Except HamInitError (List HamTerm) :=
  if terms.length = 0 then .error .valueErrorNoTerms
  else if terms.any (fun t => t.require_grid && grid.isNone) then
    .error .typeErrorGridMissing
  else if idiot_proof then
    if terms.any (fun t => t.exchange) then
      .ok (((terms ++
          (if terms.countP (fun t => t.kind == TermKind.kinetic) = 0 then [kineticTerm] else [])) ++
          (if terms.countP (fun t => t.kind == TermKind.hartree) = 0 then [hartreeTerm] else [])) ++
          (if terms.countP (fun t => t.kind == TermKind.extpot) = 0 then [extPotTerm] else []))
    else .error .valueErrorNoExchange
  else .ok terms

/-- C6: constructing a Hamiltonian with an empty term list fails at
construction time with the `ValueError` outcome (first conjunct, for any
grid and validation flag), and constructing one containing a term with
`require_grid` true while the grid argument is `None` fails at
construction time with the `TypeError` outcome (second conjunct); in the
model the constructor itself returns the error, so the failure is never
deferred to a `compute`/`compute_fock` call. -/
theorem hamiltonian_init_construction_errors (terms : List HamTerm)
    (grid : Option Unit) (idiot_proof : Bool) (t : HamTerm)
    (hmem : t ∈ terms) (hreq : t.require_grid = true) :
    hamiltonianInit [] grid idiot_proof = .error .valueErrorNoTerms ∧
    hamiltonianInit terms none idiot_proof = .error .typeErrorGridMissing := by
  constructor
  · simp [hamiltonianInit]
  · have hne : ¬ terms.length = 0 := by
      intro hlen
      rw [List.length_eq_zero] at hlen
      subst hlen
      cases hmem
    have hany : terms.any (fun t => t.require_grid && (none : Option Unit).isNone) = true := by
      rw [List.any_eq_true]
      exact ⟨t, hmem, by simp [hreq]⟩
    simp only [hamiltonianInit, if_neg hne, hany, if_pos rfl]
    simp

/-- Witness for `hamiltonian_init_construction_errors` at a singleton
term list containing one grid-requiring term. -/
theorem hamiltonian_init_construction_errors_witness :
    ((⟨true, false, TermKind.other⟩ : HamTerm) ∈
        [(⟨true, false, TermKind.other⟩ : HamTerm)] ∧
      (⟨true, false, TermKind.other⟩ : HamTerm).require_grid = true) ∧
    hamiltonianInit [] (some ()) true = .error .valueErrorNoTerms ∧
    hamiltonianInit [⟨true, false, TermKind.other⟩] none true =
      .error .typeErrorGridMissing :=
  ⟨⟨List.mem_singleton.mpr rfl, rfl⟩,
    hamiltonian_init_construction_errors [⟨true, false, TermKind.other⟩]
      (some ()) true ⟨true, false, TermKind.other⟩ (List.mem_singleton.mpr rfl) rfl⟩

/-- C7: under `idiot_proof=True` (and with the earlier checks passing:
non-empty term list, no missing grid), a term list containing no
exchange term is rejected at construction time with the `ValueError`
outcome; when an exchange term is present, construction succeeds and any
missing `KineticEnergy`, `Hartree`, or `ExternalPotential` term is
appended automatically to the term list, in that order, each exactly
when no term of that class occurs among the user-supplied terms. -/
theorem hamiltonian_init_idiot_proof (terms : List HamTerm) (grid : Option Unit)
    (hne : terms ≠ [])
    (hgrid : terms.any (fun t => t.require_grid && grid.isNone) = false) :
    (terms.any (fun t => t.exchange) = false →
      hamiltonianInit terms grid true = .error .valueErrorNoExchange) ∧
    (terms.any (fun t => t.exchange) = true →
      hamiltonianInit terms grid true = .ok (((terms ++
        (if terms.countP (fun t => t.kind == TermKind.kinetic) = 0 then [kineticTerm] else [])) ++
        (if terms.countP (fun t => t.kind == TermKind.hartree) = 0 then [hartreeTerm] else [])) ++
        (if terms.countP (fun t => t.kind == TermKind.extpot) = 0 then [extPotTerm] else []))) := by
  have hlen : ¬ terms.length = 0 := by
    intro hlen
    exact hne (List.length_eq_zero.mp hlen)
  constructor
  · intro hnoex
    simp only [hamiltonianInit, if_neg hlen, hgrid]
    simp [hnoex]
  · intro hex
    simp only [hamiltonianInit, if_neg hlen, hgrid]
    simp [hex]

/-- Witness for `hamiltonian_init_idiot_proof`: a single exchange term of
unclassified kind, no grid; all three standard terms get appended. -/
theorem hamiltonian_init_idiot_proof_witness :
    (([(⟨false, true, TermKind.other⟩ : HamTerm)] ≠ []) ∧
      [(⟨false, true, TermKind.other⟩ : HamTerm)].any
        (fun t => t.require_grid && (none : Option Unit).isNone) = false ∧
      [(⟨false, true, TermKind.other⟩ : HamTerm)].any (fun t => t.exchange) = true) ∧
    hamiltonianInit [⟨false, true, TermKind.other⟩] none true =
      .ok [⟨false, true, TermKind.other⟩, kineticTerm, hartreeTerm, extPotTerm] := by
  refine ⟨⟨by simp, by simp, by simp⟩, ?_⟩
  have h := (hamiltonian_init_idiot_proof [⟨false, true, TermKind.other⟩] none
    (by simp) (by simp)).2 (by simp)
  simpa using h

/-! ### Unrestricted two-index term (`UTwoIndexTerm.compute_energy`,
src/observable.py lines 135-146, and `compute_dm_full`, lines 35-43)

Operators and density matrices are `n × n` real matrices, modelled as
rational-valued functions on `Fin n × Fin n`; `contract_two('ab,ab', x)`
is the double contraction `sum_ab op[a,b] * x[a,b]`.  The Python `is`
test on `op_alpha`/`op_beta` is modelled by a Boolean `same`; object
identity implies value equality, which is what the exactness theorem
consumes. -/

/-- The double contraction `op.contract_two('ab,ab', dm)`. -/
def contract_two (op dm : Fin n → Fin n → ℚ) : ℚ :=
  ∑ a, ∑ b, op a b * dm a b

/-- Shallow embedding of `compute_dm_full` (src/observable.py lines
35-43): the spin-summed density matrix `dm_full = dm_alpha + dm_beta`
(the cache merely memoizes this value; the allocation-and-fill is
modelled by the sum it produces). -/
def compute_dm_full (dm_alpha dm_beta : Fin n → Fin n → ℚ) :
    Fin n → Fin n → ℚ :=
  fun a b => dm_alpha a b + dm_beta a b

/-- Shallow embedding of `UTwoIndexTerm.compute_energy`
(src/observable.py lines 135-146): when `op_alpha is op_beta` (the
`same` flag), contract once with the spin-summed density matrix;
otherwise contract each spin channel with its own operator. -/
def uTwoIndexTerm_compute_energy (op_alpha op_beta : Fin n → Fin n → ℚ)
    (dm_alpha dm_beta : Fin n → Fin n → ℚ) (same : Bool) : ℚ :=
  if same then contract_two op_alpha (compute_dm_full dm_alpha dm_beta)
  else contract_two op_alpha dm_alpha + contract_two op_beta dm_beta

/-- C8: for every cache containing `dm_alpha` and `dm_beta`, when
`op_alpha` and `op_beta` are the same object (so in particular equal as
matrices), the spin-summed shortcut of `UTwoIndexTerm.compute_energy`
returns exactly the same value as the per-spin path
`op_alpha·dm_alpha + op_beta·dm_beta`: the performance shortcut is
semantically exact. -/
theorem uTwoIndexTerm_shortcut_exact (n : ℕ)
    (op_alpha op_beta dm_alpha dm_beta : Fin n → Fin n → ℚ)
    (hsame : op_beta = op_alpha) :
    uTwoIndexTerm_compute_energy op_alpha op_beta dm_alpha dm_beta true =
      uTwoIndexTerm_compute_energy op_alpha op_beta dm_alpha dm_beta false := by
  subst hsame
  simp only [uTwoIndexTerm_compute_energy, if_pos, if_neg, Bool.true_eq_false,
    if_false, if_true, contract_two, compute_dm_full]
  rw [← Finset.sum_add_distrib]
  refine Finset.sum_congr rfl fun a _ => ?_
  rw [← Finset.sum_add_distrib]
  refine Finset.sum_congr rfl fun b _ => ?_
  ring

/-- Witness for `uTwoIndexTerm_shortcut_exact` on concrete `1 × 1`
matrices. -/
theorem uTwoIndexTerm_shortcut_exact_witness :
    ((fun _ _ : Fin 1 => (2 : ℚ)) = fun _ _ : Fin 1 => (2 : ℚ)) ∧
    uTwoIndexTerm_compute_energy (fun _ _ : Fin 1 => (2 : ℚ))
        (fun _ _ : Fin 1 => (2 : ℚ)) (fun _ _ => 3) (fun _ _ => 5) true =
      uTwoIndexTerm_compute_energy (fun _ _ : Fin 1 => (2 : ℚ))
        (fun _ _ : Fin 1 => (2 : ℚ)) (fun _ _ => 3) (fun _ _ => 5) false :=
  ⟨rfl, uTwoIndexTerm_shortcut_exact 1 (fun _ _ => 2) (fun _ _ => 2)
    (fun _ _ => 3) (fun _ _ => 5) rfl⟩

end Meanfield
